import Mathlib

/-!
Shallow embedding of the vidhub admission-control core: the per-IP quota
tracker (`QuotaService`), the per-IP rate limiter (`RateLimitService`),
the expiring file registry (`storage.Manager`) and the URL validator
(`validator.ValidateURL`).

Time is modelled as `Int` seconds.  Go's `time.After` / `time.Before` are
strict comparisons, embedded as `timeAfter` / `timeBefore`.  A calendar day
has 86400 seconds; "today at hour:minute" (Go `time.Date` at `now`'s date)
is the floor of `now` to a day boundary plus the configured offset, which
for a positive divisor is `Int.ediv`.
-/

namespace Vidhub

/-- Go `a.After(b)`: strict `a > b`. -/
def timeAfter (a b : Int) : Bool := decide (b < a)

/-- Go `a.Before(b)`: strict `a < b`. -/
def timeBefore (a b : Int) : Bool := decide (a < b)

def secondsPerDay : Int := 86400

/-! ## Quota tracker (`service.QuotaService`, src/unnamed/part_001) -/

/-- `model.QuotaConfig` (src/unnamed/part_004). -/
structure QuotaConfig where
  enabled : Bool
  dailyLimitMB : Int
  resetHour : Int
  resetMinute : Int
deriving DecidableEq

/-- `service.QuotaEntry`; the `IP` key is implicit (we model the state for
one key), `LastUpdate` is dropped (never read by any decision). -/
structure QuotaEntry where
  usedMB : Int
  resetTime : Int
deriving DecidableEq

/-- `calculateResetTime`: today at the configured hour:minute (local time),
rolled forward one day iff it is strictly before `now` (`resetTime.Before(now)`). -/
def calculateResetTime (cfg : QuotaConfig) (now : Int) : Int :=
  let resetTime := now / secondsPerDay * secondsPerDay
      + cfg.resetHour * 3600 + cfg.resetMinute * 60
  if timeBefore resetTime now then resetTime + secondsPerDay else resetTime

/-- `CheckQuota(ip, requestedSizeMB)`: returns `(allowed, remaining)` and the
updated per-key state (creating the entry when absent and applying the lazy
reset when `now.After(ResetTime)`). -/
def checkQuota (cfg : QuotaConfig) (st : Option QuotaEntry) (now requestedSizeMB : Int) :
    Bool × Int × Option QuotaEntry :=
  if !cfg.enabled then (true, cfg.dailyLimitMB, st)
  else
    let entry :=
      match st with
      | none => { usedMB := 0, resetTime := calculateResetTime cfg now }
      | some e => e
    let entry :=
      if timeAfter now entry.resetTime then
        { usedMB := 0, resetTime := calculateResetTime cfg now }
      else entry
    let remaining := cfg.dailyLimitMB - entry.usedMB
    if remaining ≤ 0 then (false, 0, some entry)
    else if remaining < requestedSizeMB then (false, remaining, some entry)
    else (true, remaining, some entry)

/-- `AddUsage(ip, sizeMB)`: create the entry with `UsedMB = sizeMB` when
absent, otherwise add; never checks the limit, never resets. -/
def addUsage (cfg : QuotaConfig) (st : Option QuotaEntry) (now sizeMB : Int) :
    Option QuotaEntry :=
  if !cfg.enabled then st
  else
    match st with
    | none => some { usedMB := sizeMB, resetTime := calculateResetTime cfg now }
    | some e => some { e with usedMB := e.usedMB + sizeMB }

/-- The fields of the map returned by `GetQuotaInfo`. -/
structure QuotaInfo where
  enabled : Bool
  usedMB : Int
  limitMB : Int
  remainingMB : Int
  resetTime : Int
deriving DecidableEq

/-- `GetQuotaInfo(ip)`: a read-only snapshot.  Note it performs no reset:
the stored `UsedMB` and `ResetTime` are returned as-is even when `now`
is past `ResetTime` (only `remaining` is clamped at 0). -/
def getQuotaInfo (cfg : QuotaConfig) (st : Option QuotaEntry) (now : Int) : QuotaInfo :=
  if !cfg.enabled then
    { enabled := false, usedMB := 0, limitMB := 0, remainingMB := 0, resetTime := 0 }
  else
    match st with
    | none =>
      { enabled := true, usedMB := 0, limitMB := cfg.dailyLimitMB,
        remainingMB := cfg.dailyLimitMB, resetTime := calculateResetTime cfg now }
    | some e =>
      { enabled := true, usedMB := e.usedMB, limitMB := cfg.dailyLimitMB,
        remainingMB := max (cfg.dailyLimitMB - e.usedMB) 0, resetTime := e.resetTime }

/-- A sequence of `AddUsage` calls, each a `(time, sizeMB)` pair. -/
def runCommits (cfg : QuotaConfig) (st : Option QuotaEntry) :
    List (Int × Int) → Option QuotaEntry
  | [] => st
  | c :: cs => runCommits cfg (addUsage cfg st c.1 c.2) cs

/-! ## Rate limiter (`service.RateLimitService`, src/backend/internal/service/video_service.go) -/

/-- `model.RateLimitConfig` (src/unnamed/part_004); `CleanupInterval` only
drives the background prune cadence and is dropped. -/
structure RateLimitConfig where
  enabled : Bool
  requestsPerMinute : Int
  burstSize : Int
deriving DecidableEq

/-- `service.RateLimitEntry`; the `IP` key is implicit. -/
structure RateLimitEntry where
  requests : Int
  resetAt : Int
  blocked : Bool
deriving DecidableEq

/-- `IsAllowed(ip)`: returns the verdict and the updated per-key state.
A fresh key gets `(count=1, resetAt=now+60s, blocked=false)` and is allowed;
past `resetAt` the entry is reset the same way and allowed; a blocked entry
is denied unchanged; otherwise the count is incremented and the call is
denied (tripping `blocked`) iff the new count exceeds `RequestsPerMinute`. -/
def isAllowed (cfg : RateLimitConfig) (st : Option RateLimitEntry) (now : Int) :
    Bool × Option RateLimitEntry :=
  if !cfg.enabled then (true, st)
  else
    match st with
    | none => (true, some { requests := 1, resetAt := now + 60, blocked := false })
    | some entry =>
      if timeAfter now entry.resetAt then
        (true, some { requests := 1, resetAt := now + 60, blocked := false })
      else if entry.blocked then (false, some entry)
      else
        let entry' := { entry with requests := entry.requests + 1 }
        if cfg.requestsPerMinute < entry'.requests then
          (false, some { entry' with blocked := true })
        else (true, some entry')

/-- `AllowBurst(ip)`: same state machine as `IsAllowed` except the trip
threshold is `RequestsPerMinute + BurstSize`. -/
def allowBurst (cfg : RateLimitConfig) (st : Option RateLimitEntry) (now : Int) :
    Bool × Option RateLimitEntry :=
  if !cfg.enabled then (true, st)
  else
    match st with
    | none => (true, some { requests := 1, resetAt := now + 60, blocked := false })
    | some entry =>
      if timeAfter now entry.resetAt then
        (true, some { requests := 1, resetAt := now + 60, blocked := false })
      else if entry.blocked then (false, some entry)
      else
        let entry' := { entry with requests := entry.requests + 1 }
        let limit := cfg.requestsPerMinute + cfg.burstSize
        if limit < entry'.requests then
          (false, some { entry' with blocked := true })
        else (true, some entry')

/-- A sequence of `IsAllowed` calls at the given times; returns the verdicts
in order and the final per-key state. -/
def runAllow (cfg : RateLimitConfig) (st : Option RateLimitEntry) :
    List Int → List Bool × Option RateLimitEntry
  | [] => ([], st)
  | t :: ts =>
    ((isAllowed cfg st t).1 :: (runAllow cfg (isAllowed cfg st t).2 ts).1,
     (runAllow cfg (isAllowed cfg st t).2 ts).2)

/-- One call of either variant: `(useBurst, time)`. -/
def rateStep (cfg : RateLimitConfig) (st : Option RateLimitEntry) (c : Bool × Int) :
    Bool × Option RateLimitEntry :=
  if c.1 then allowBurst cfg st c.2 else isAllowed cfg st c.2

/-- A sequence of mixed `IsAllowed` / `AllowBurst` calls. -/
def runRate (cfg : RateLimitConfig) (st : Option RateLimitEntry) :
    List (Bool × Int) → List Bool × Option RateLimitEntry
  | [] => ([], st)
  | c :: cs =>
    ((rateStep cfg st c).1 :: (runRate cfg (rateStep cfg st c).2 cs).1,
     (runRate cfg (rateStep cfg st c).2 cs).2)

/-! ## Expiring file registry (`storage.Manager`, src/unnamed/part_003) -/

/-- `model.StorageConfig` (src/unnamed/part_004), the fields the tracked-file
logic reads. -/
structure StorageConfig where
  fileTTLSeconds : Int
  maxVideoSizeMB : Int
deriving DecidableEq

/-- `model.DownloadedFile` (src/unnamed/part_004); `Filename`, `Size` and
`URL` are carried but never read by the registry logic, so they are dropped. -/
structure DownloadedFile where
  id : String
  filePath : String
  createdAt : Int
  expiresAt : Int
deriving DecidableEq

/-- Outcome of `os.Remove` on a backing file: success, `IsNotExist` error,
or any other error.  The filesystem is an oracle `String → DeleteResult`. -/
inductive DeleteResult
  | ok
  | notExist
  | otherErr
deriving DecidableEq

/-- `SaveFile(id, file)`: stamps `ID`, `CreatedAt = now`,
`ExpiresAt = now + FileTTLSeconds` and stores the record under `id`
(map assignment: any previous record for `id` is overwritten). -/
def saveFile (cfg : StorageConfig) (files : List (String × DownloadedFile))
    (now : Int) (id : String) (f : DownloadedFile) : List (String × DownloadedFile) :=
  (id, { f with id := id, createdAt := now, expiresAt := now + cfg.fileTTLSeconds })
    :: files.filter (fun p => !(p.1 == id))

/-- The scan loop of `cleanupExpiredFiles`: for every record with
`now.After(ExpiresAt)` it attempts `os.Remove(FilePath)` — counting a
success in `deletedCount`, ignoring `IsNotExist`, counting any other error
in `errorCount` — and collects the id for removal regardless of the
deletion outcome.  Returns `(deletedIds, deletedCount, errorCount)`. -/
def sweepScan (fs : String → DeleteResult) (now : Int) :
    List (String × DownloadedFile) → List String × Nat × Nat
  | [] => ([], 0, 0)
  | (id, f) :: rest =>
    let acc := sweepScan fs now rest
    if timeAfter now f.expiresAt then
      match fs f.filePath with
      | .ok => (id :: acc.1, acc.2.1 + 1, acc.2.2)
      | .notExist => (id :: acc.1, acc.2.1, acc.2.2)
      | .otherErr => (id :: acc.1, acc.2.1, acc.2.2 + 1)
    else acc

/-- `delete(m, id)` for each collected id. -/
def removeIds (files : List (String × DownloadedFile)) (ids : List String) :
    List (String × DownloadedFile) :=
  ids.foldl (fun acc i => acc.filter (fun p => !(p.1 == i))) files

/-- Result of one `cleanupExpiredFiles` run. -/
structure CleanupResult where
  files : List (String × DownloadedFile)
  deletedCount : Nat
  errorCount : Nat
deriving DecidableEq

/-- `cleanupExpiredFiles`: scan all records, then delete the collected ids
from the tracking map. -/
def cleanupExpiredFiles (fs : String → DeleteResult)
    (files : List (String × DownloadedFile)) (now : Int) : CleanupResult :=
  let scan := sweepScan fs now files
  { files := removeIds files scan.1, deletedCount := scan.2.1, errorCount := scan.2.2 }

/-- `GetFile(id)`: map lookup, `none` when absent (Go returns `nil`). -/
def getFile (files : List (String × DownloadedFile)) (id : String) :
    Option DownloadedFile :=
  (files.find? (fun p => p.1 == id)).map Prod.snd

/-- `ValidateFileSize(sizeBytes)`. -/
def validateFileSize (cfg : StorageConfig) (sizeBytes : Int) : Bool :=
  decide (sizeBytes ≤ cfg.maxVideoSizeMB * 1024 * 1024)

/-! ## Stop signal of the cleanup routine (`Manager.Stop` / `cleanupRoutine`) -/

/-- Outcome of `Stop()`: the `select { case m.quitChan <- true: ... default: ... }`
on the unbuffered `quitChan` delivers the signal only if the routine is at
that instant blocked receiving on the channel; otherwise the `default`
branch runs and `Stop` returns with the signal dropped. -/
inductive StopOutcome
  | delivered
  | dropped
deriving DecidableEq

/-- `Stop()`, parameterised by whether the cleanup routine is currently
waiting to receive on `quitChan` (unbuffered channel: a non-blocking send
succeeds only against a waiting receiver). -/
def managerStop (receiverWaiting : Bool) : StopOutcome :=
  if receiverWaiting then .delivered else .dropped

/-- The events the `select` in `cleanupRoutine` can observe. -/
inductive RoutineEvent
  | quit
  | tick
deriving DecidableEq

/-- Whether `cleanupRoutine` has returned. -/
inductive RoutineState
  | running
  | stopped
deriving DecidableEq

/-- One iteration of `cleanupRoutine`'s `for { select ... } }` loop: a
received quit signal returns; a tick runs a sweep and loops. -/
def routineStep : RoutineState → RoutineEvent → RoutineState
  | .running, .quit => .stopped
  | .running, .tick => .running
  | .stopped, _ => .stopped

/-- The routine driven by a finite prefix of its event trace. -/
def runRoutine (evs : List RoutineEvent) : RoutineState :=
  evs.foldl routineStep .running

/-! ## URL validator (`validator.ValidateURL`, src/backend/pkg/validator/validator.go)

Strings are modelled as `List Char`.  Go's `url.Parse` is standard-library
glue outside the validator; `validateURL` therefore takes the parse outcome:
`none` for a parse error (return `false`), `some host` for `u.Host`. -/

/-- `strings.HasPrefix`. -/
def goStartsWith (s pre : List Char) : Bool := pre.isPrefixOf s

/-- `strings.HasSuffix`. -/
def goEndsWith (s suf : List Char) : Bool := suf.isSuffixOf s

/-- `strings.Contains(s, sub)`: `sub` occurs contiguously in `s`. -/
def goContains (s sub : List Char) : Bool :=
  match s with
  | [] => sub.isEmpty
  | _ :: t => sub.isPrefixOf s || goContains t sub

/-- `unicode.IsSpace` restricted to the ASCII whitespace Go recognises. -/
def goIsSpace (c : Char) : Bool :=
  c = ' ' || c = '\t' || c = '\n' || c = '\x0b' || c = '\x0c' || c = '\r'

/-- `strings.TrimSpace`. -/
def goTrimSpace (s : List Char) : List Char :=
  ((s.dropWhile goIsSpace).reverse.dropWhile goIsSpace).reverse

/-- `strings.ToLower` (per-character, as for ASCII hosts/domains). -/
def goToLower (s : List Char) : List Char := s.map Char.toLower

/-- Host normalisation of `ValidateURL`: strip a literal leading `"www."`,
then lowercase. -/
def normalizeHost (host : List Char) : List Char :=
  goToLower (if goStartsWith host ['w', 'w', 'w', '.'] then host.drop 4 else host)

/-- The allow-list loop of `ValidateURL`: each domain is trimmed and
lowercased, empty ones are skipped, and the host matches if it equals the
domain, ends in `"." + domain`, or merely *contains* the domain. -/
def hostAllowed (host : List Char) (allowedDomains : List (List Char)) : Bool :=
  allowedDomains.any (fun domain =>
    let cleanDomain := goToLower (goTrimSpace domain)
    if cleanDomain.isEmpty then false
    else
      (normalizeHost host == cleanDomain)
        || goEndsWith (normalizeHost host) ('.' :: cleanDomain)
        || goContains (normalizeHost host) cleanDomain)

/-- `ValidateURL(videoURL, allowedDomains)`: `parsed` is the outcome of
`url.Parse(videoURL)` (`none` on error, `some u.Host` on success). -/
def validateURL (parsed : Option (List Char)) (allowedDomains : List (List Char)) : Bool :=
  match parsed with
  | none => false
  | some host => hostAllowed host allowedDomains

/-! ## Concrete instances used by witnesses and counterexamples -/

/-- Quota config of the end-to-end scenario: enabled, daily limit
100 000 000, reset at 00:00. -/
def cfgQ : QuotaConfig :=
  { enabled := true, dailyLimitMB := 100000000, resetHour := 0, resetMinute := 0 }

/-- Rate-limit config of the scenarios: enabled, 5 requests per window,
burst 2. -/
def cfgR : RateLimitConfig :=
  { enabled := true, requestsPerMinute := 5, burstSize := 2 }

/-- Storage config of the scenarios: TTL 60 seconds. -/
def cfgS : StorageConfig := { fileTTLSeconds := 60, maxVideoSizeMB := 500 }

/-- A bare file record before `SaveFile` stamps it. -/
def rawFile (path : String) : DownloadedFile :=
  { id := "", filePath := path, createdAt := 0, expiresAt := 0 }

/-- Sweep fixture: expired record whose backing file deletes cleanly. -/
def fileA : DownloadedFile := { id := "a", filePath := "pa", createdAt := 0, expiresAt := 50 }

/-- Sweep fixture: expired record whose deletion fails hard. -/
def fileB : DownloadedFile := { id := "b", filePath := "pb", createdAt := 0, expiresAt := 50 }

/-- Sweep fixture: record that is not yet expired at t = 100. -/
def fileC : DownloadedFile := { id := "c", filePath := "pc", createdAt := 0, expiresAt := 200 }

/-- Sweep fixture: the tracking map. -/
def filesW : List (String × DownloadedFile) := [("a", fileA), ("b", fileB), ("c", fileC)]

/-- Sweep fixture: the filesystem oracle — "pa" deletes, "pb" fails with a
non-IsNotExist error, everything else is already absent. -/
def fsW : String → DeleteResult := fun path =>
  if path = "pa" then .ok else if path = "pb" then .otherErr else .notExist

/-!
# Theorems
-/

theorem timeAfter_eq_true {a b : Int} : timeAfter a b = true ↔ b < a := by
  simp [timeAfter]

theorem timeAfter_eq_false {a b : Int} : timeAfter a b = false ↔ a ≤ b := by
  simp [timeAfter]

theorem runCommits_some (cfg : QuotaConfig) (hen : cfg.enabled = true)
    (e : QuotaEntry) (cs : List (Int × Int)) :
    runCommits cfg (some e) cs =
      some { usedMB := e.usedMB + (cs.map Prod.snd).sum, resetTime := e.resetTime } := by
  induction cs generalizing e with
  | nil => simp [runCommits]
  | cons c cs ih =>
    simp only [runCommits, addUsage, hen, Bool.not_true, Bool.false_eq_true, if_false]
    rw [ih]
    simp [add_assoc]

theorem runCommits_from_none (cfg : QuotaConfig) (hen : cfg.enabled = true)
    (c : Int × Int) (cs : List (Int × Int)) :
    runCommits cfg none (c :: cs) =
      some { usedMB := c.2 + (cs.map Prod.snd).sum,
             resetTime := calculateResetTime cfg c.1 } := by
  simp only [runCommits, addUsage, hen, Bool.not_true, Bool.false_eq_true, if_false]
  rw [runCommits_some cfg hen]

theorem checkQuota_inWindow (cfg : QuotaConfig) (hen : cfg.enabled = true)
    (e : QuotaEntry) (now r : Int) (hwin : now ≤ e.resetTime) :
    checkQuota cfg (some e) now r =
      if cfg.dailyLimitMB - e.usedMB ≤ 0 then (false, 0, some e)
      else if cfg.dailyLimitMB - e.usedMB < r then
        (false, cfg.dailyLimitMB - e.usedMB, some e)
      else (true, cfg.dailyLimitMB - e.usedMB, some e) := by
  have h : timeAfter now e.resetTime = false := timeAfter_eq_false.mpr hwin
  simp only [checkQuota, hen, Bool.not_true, Bool.false_eq_true, if_false, h]

/-- C1: with quota enabled and daily limit `L`, after commits totalling `U`
within the current window, `CheckQuota(key, r)` computes
`remaining = L - U` and returns `(false, 0)` when `remaining ≤ 0`,
`(false, remaining)` when `r > remaining`, and `(true, remaining)` otherwise
(the per-key entry is left at `UsedMB = U` with its window reset instant
unchanged). -/
theorem quota_checkHeadroom_C1 (cfg : QuotaConfig) (hen : cfg.enabled = true)
    (c : Int × Int) (cs : List (Int × Int)) (now r : Int)
    (hwin : now ≤ calculateResetTime cfg c.1) :
    checkQuota cfg (runCommits cfg none (c :: cs)) now r =
      (let U := c.2 + (cs.map Prod.snd).sum
       let remaining := cfg.dailyLimitMB - U
       let entry : QuotaEntry := { usedMB := U, resetTime := calculateResetTime cfg c.1 }
       if remaining ≤ 0 then (false, 0, some entry)
       else if r > remaining then (false, remaining, some entry)
       else (true, remaining, some entry)) := by
  rw [runCommits_from_none cfg hen]
  exact checkQuota_inWindow cfg hen _ now r hwin

/-- C1 witness: daily limit 100 000 000, a commit of 60 000 000 at 01:00,
then `CheckQuota(·, 50 000 000)` and `CheckQuota(·, 30 000 000)` at 02:00. -/
theorem quota_checkHeadroom_C1_witness :
    ((7200:Int) ≤ calculateResetTime cfgQ 3600)
    ∧ checkQuota cfgQ (runCommits cfgQ none [(3600, 60000000)]) 7200 50000000
        = (false, 40000000, some { usedMB := 60000000, resetTime := 86400 })
    ∧ checkQuota cfgQ (runCommits cfgQ none [(3600, 60000000)]) 7200 30000000
        = (true, 40000000, some { usedMB := 60000000, resetTime := 86400 }) := by
  refine ⟨by decide, ?_, ?_⟩
  · rw [quota_checkHeadroom_C1 cfgQ rfl (3600, 60000000) [] 7200 50000000 (by decide)]
    decide
  · rw [quota_checkHeadroom_C1 cfgQ rfl (3600, 60000000) [] 7200 30000000 (by decide)]
    decide

/-- C4 counterexample: with `resetHour=0, resetMinute=0`, a `Commit` of
60 000 000 at 23:59 (t = 86340) followed by a `GetQuotaInfo` read at 00:01
the next day (t = 86460) shows `used_mb = 60000000` — not `0` — and
`reset_time` still the crossed midnight instant 86400, not one day later:
the read performs no lazy reset. -/
theorem quota_status_C4_counterexample :
    (getQuotaInfo cfgQ (addUsage cfgQ none 86340 60000000) 86460).usedMB = 60000000
    ∧ (getQuotaInfo cfgQ (addUsage cfgQ none 86340 60000000) 86460).resetTime = 86400
    ∧ ¬ ((getQuotaInfo cfgQ (addUsage cfgQ none 86340 60000000) 86460).usedMB = 0) := by
  refine ⟨by decide, by decide, by decide⟩

/-- C4 (amended): `GetQuotaInfo` performs no lazy reset.  Even when the
window-reset instant has been crossed (`windowResetAt < now`) it reports the
stored `UsedMB` unchanged and the stale `ResetTime` (remaining clamped at 0),
whereas `CheckQuota` at the same instant resets the entry to
`UsedMB = 0` with a fresh future reset instant. -/
theorem quota_status_C4_amended (cfg : QuotaConfig) (hen : cfg.enabled = true)
    (e : QuotaEntry) (now : Int) (hcross : e.resetTime < now) :
    getQuotaInfo cfg (some e) now =
      { enabled := true, usedMB := e.usedMB, limitMB := cfg.dailyLimitMB,
        remainingMB := max (cfg.dailyLimitMB - e.usedMB) 0, resetTime := e.resetTime }
    ∧ (checkQuota cfg (some e) now 0).2.2 =
        some { usedMB := 0, resetTime := calculateResetTime cfg now } := by
  constructor
  · simp [getQuotaInfo, hen]
  · have h : timeAfter now e.resetTime = true := timeAfter_eq_true.mpr hcross
    simp only [checkQuota, hen, Bool.not_true, Bool.false_eq_true, if_false, h, if_true]
    split_ifs <;> rfl

/-- C4 amended-claim witness: the 23:59 / 00:01 scenario itself. -/
theorem quota_status_C4_amended_witness :
    getQuotaInfo cfgQ (some { usedMB := 60000000, resetTime := 86400 }) 86460 =
      { enabled := true, usedMB := 60000000, limitMB := 100000000,
        remainingMB := 40000000, resetTime := 86400 }
    ∧ (checkQuota cfgQ (some { usedMB := 60000000, resetTime := 86400 }) 86460 0).2.2 =
        some { usedMB := 0, resetTime := 172800 } := by
  have h := quota_status_C4_amended cfgQ rfl
    { usedMB := 60000000, resetTime := 86400 } 86460 (by decide)
  refine ⟨by rw [h.1]; decide, by rw [h.2]; decide⟩

/-- C7 counterexample: with `resetHour=0, resetMinute=0` and `now` exactly
midnight (t = 0), `calculateResetTime` returns `now` itself — the roll-forward
condition is strict `Before`, so the result is not strictly in the future and
the claimed `next ≤ now` rule (which would give 86400) does not hold. -/
theorem quota_resetTime_C7_counterexample :
    calculateResetTime cfgQ 0 = 0 ∧ ¬ (0 < calculateResetTime cfgQ 0) := by
  refine ⟨by decide, by decide⟩

/-- C7 (amended): `calculateResetTime` returns today at the configured
hour:minute, incremented by one day iff that instant is *strictly before*
`now`; consequently the result satisfies `now ≤ result`, with equality
exactly when the configured instant equals `now`. -/
theorem quota_resetTime_C7_amended (cfg : QuotaConfig) (now : Int)
    (hh : 0 ≤ cfg.resetHour) (hm : 0 ≤ cfg.resetMinute) :
    (calculateResetTime cfg now =
      if now / secondsPerDay * secondsPerDay
          + cfg.resetHour * 3600 + cfg.resetMinute * 60 < now
      then now / secondsPerDay * secondsPerDay
          + cfg.resetHour * 3600 + cfg.resetMinute * 60 + secondsPerDay
      else now / secondsPerDay * secondsPerDay
          + cfg.resetHour * 3600 + cfg.resetMinute * 60)
    ∧ now ≤ calculateResetTime cfg now := by
  have hform : calculateResetTime cfg now =
      if now / secondsPerDay * secondsPerDay
          + cfg.resetHour * 3600 + cfg.resetMinute * 60 < now
      then now / secondsPerDay * secondsPerDay
          + cfg.resetHour * 3600 + cfg.resetMinute * 60 + secondsPerDay
      else now / secondsPerDay * secondsPerDay
          + cfg.resetHour * 3600 + cfg.resetMinute * 60 := by
    simp [calculateResetTime, timeBefore]
  refine ⟨hform, ?_⟩
  rw [hform]
  simp only [secondsPerDay]
  split_ifs with hif <;> omega

/-- C7 amended-claim witness: at 23:59 (t = 86340) with midnight reset the
next reset instant is the future midnight. -/
theorem quota_resetTime_C7_amended_witness :
    ((0:Int) ≤ cfgQ.resetHour) ∧ ((0:Int) ≤ cfgQ.resetMinute)
    ∧ (86340:Int) ≤ calculateResetTime cfgQ 86340 := by
  refine ⟨by decide, by decide,
    (quota_resetTime_C7_amended cfgQ 86340 (by decide) (by decide)).2⟩

theorem isAllowed_fresh (cfg : RateLimitConfig) (hen : cfg.enabled = true) (now : Int) :
    isAllowed cfg none now =
      (true, some { requests := 1, resetAt := now + 60, blocked := false }) := by
  simp [isAllowed, hen]

theorem isAllowed_reset (cfg : RateLimitConfig) (hen : cfg.enabled = true)
    (e : RateLimitEntry) (now : Int) (h : e.resetAt < now) :
    isAllowed cfg (some e) now =
      (true, some { requests := 1, resetAt := now + 60, blocked := false }) := by
  have ha : timeAfter now e.resetAt = true := timeAfter_eq_true.mpr h
  simp [isAllowed, hen, ha]

theorem isAllowed_blocked (cfg : RateLimitConfig) (hen : cfg.enabled = true)
    (e : RateLimitEntry) (now : Int) (h : now ≤ e.resetAt) (hb : e.blocked = true) :
    isAllowed cfg (some e) now = (false, some e) := by
  have ha : timeAfter now e.resetAt = false := timeAfter_eq_false.mpr h
  simp [isAllowed, hen, ha, hb]

theorem isAllowed_count (cfg : RateLimitConfig) (hen : cfg.enabled = true)
    (e : RateLimitEntry) (now : Int) (h : now ≤ e.resetAt) (hb : e.blocked = false) :
    isAllowed cfg (some e) now =
      if cfg.requestsPerMinute < e.requests + 1 then
        (false, some { requests := e.requests + 1, resetAt := e.resetAt, blocked := true })
      else
        (true, some { requests := e.requests + 1, resetAt := e.resetAt, blocked := false }) := by
  have ha : timeAfter now e.resetAt = false := timeAfter_eq_false.mpr h
  simp only [isAllowed, hen, Bool.not_true, Bool.false_eq_true, if_false, ha, hb]

theorem allowBurst_eq_isAllowed (cfg : RateLimitConfig)
    (st : Option RateLimitEntry) (now : Int) :
    allowBurst cfg st now =
      isAllowed { cfg with requestsPerMinute := cfg.requestsPerMinute + cfg.burstSize }
        st now := by
  cases st <;> rfl

/-- C2: with rate limiting enabled and `RequestsPerMinute = 5`, starting with
no record, 5 calls within one window are all allowed, the 6th is denied
(tripping the latch), and the first call strictly after the window reset
instant is allowed again with the record reset to
`(count = 1, blocked = false, resetAt = now + 60s)`. -/
theorem rate_allow_C2 (cfg : RateLimitConfig) (hen : cfg.enabled = true)
    (hlim : cfg.requestsPerMinute = 5) (t1 t2 t3 t4 t5 t6 t7 : Int)
    (h2 : t2 ≤ t1 + 60) (h3 : t3 ≤ t1 + 60) (h4 : t4 ≤ t1 + 60)
    (h5 : t5 ≤ t1 + 60) (h6 : t6 ≤ t1 + 60) (h7 : t1 + 60 < t7) :
    runAllow cfg none [t1, t2, t3, t4, t5, t6] =
      ([true, true, true, true, true, false],
       some { requests := 6, resetAt := t1 + 60, blocked := true })
    ∧ isAllowed cfg (some { requests := 6, resetAt := t1 + 60, blocked := true }) t7 =
        (true, some { requests := 1, resetAt := t7 + 60, blocked := false }) := by
  have e1 := isAllowed_fresh cfg hen t1
  have e2 : isAllowed cfg (some { requests := 1, resetAt := t1 + 60, blocked := false }) t2
      = (true, some { requests := 2, resetAt := t1 + 60, blocked := false }) := by
    rw [isAllowed_count cfg hen _ t2 h2 rfl, hlim]; norm_num
  have e3 : isAllowed cfg (some { requests := 2, resetAt := t1 + 60, blocked := false }) t3
      = (true, some { requests := 3, resetAt := t1 + 60, blocked := false }) := by
    rw [isAllowed_count cfg hen _ t3 h3 rfl, hlim]; norm_num
  have e4 : isAllowed cfg (some { requests := 3, resetAt := t1 + 60, blocked := false }) t4
      = (true, some { requests := 4, resetAt := t1 + 60, blocked := false }) := by
    rw [isAllowed_count cfg hen _ t4 h4 rfl, hlim]; norm_num
  have e5 : isAllowed cfg (some { requests := 4, resetAt := t1 + 60, blocked := false }) t5
      = (true, some { requests := 5, resetAt := t1 + 60, blocked := false }) := by
    rw [isAllowed_count cfg hen _ t5 h5 rfl, hlim]; norm_num
  have e6 : isAllowed cfg (some { requests := 5, resetAt := t1 + 60, blocked := false }) t6
      = (false, some { requests := 6, resetAt := t1 + 60, blocked := true }) := by
    rw [isAllowed_count cfg hen _ t6 h6 rfl, hlim]; norm_num
  refine ⟨?_, isAllowed_reset cfg hen _ t7 h7⟩
  simp [runAllow, e1, e2, e3, e4, e5, e6]

/-- C2 witness: six calls at t = 0 and a seventh at t = 61. -/
theorem rate_allow_C2_witness :
    runAllow cfgR none [0, 0, 0, 0, 0, 0] =
      ([true, true, true, true, true, false],
       some { requests := 6, resetAt := 60, blocked := true })
    ∧ isAllowed cfgR (some { requests := 6, resetAt := 60, blocked := true }) 61 =
        (true, some { requests := 1, resetAt := 121, blocked := false }) := by
  have h := rate_allow_C2 cfgR rfl rfl 0 0 0 0 0 0 61
    (by norm_num) (by norm_num) (by norm_num) (by norm_num) (by norm_num) (by norm_num)
  norm_num at h
  exact h

/-- C5: latched-block invariant.  From a blocked record, every further
`IsAllowed` / `AllowBurst` call at or before the window reset instant is
denied and leaves the record unchanged; the first call of either variant
strictly after the reset instant is allowed and resets the record to
`(count = 1, blocked = false, resetAt = now + 60s)`. -/
theorem rate_latch_C5 (cfg : RateLimitConfig) (hen : cfg.enabled = true)
    (e : RateLimitEntry) (hb : e.blocked = true) :
    (∀ calls : List (Bool × Int), (∀ c ∈ calls, c.2 ≤ e.resetAt) →
        runRate cfg (some e) calls = (List.replicate calls.length false, some e))
    ∧ (∀ now : Int, e.resetAt < now →
        isAllowed cfg (some e) now =
          (true, some { requests := 1, resetAt := now + 60, blocked := false })
        ∧ allowBurst cfg (some e) now =
          (true, some { requests := 1, resetAt := now + 60, blocked := false })) := by
  constructor
  · intro calls hc
    induction calls with
    | nil => simp [runRate]
    | cons c cs ih =>
      have ht : c.2 ≤ e.resetAt := hc c (List.mem_cons_self c cs)
      have hA := isAllowed_blocked cfg hen e c.2 ht hb
      have hB : allowBurst cfg (some e) c.2 = (false, some e) := by
        rw [allowBurst_eq_isAllowed]
        exact isAllowed_blocked
          { cfg with requestsPerMinute := cfg.requestsPerMinute + cfg.burstSize }
          hen e c.2 ht hb
      have hstep : rateStep cfg (some e) c = (false, some e) := by
        cases hcb : c.1 <;> simp [rateStep, hcb, hA, hB]
      have ih' := ih (fun c hmem => hc c (List.mem_cons_of_mem _ hmem))
      simp [runRate, hstep, ih', List.replicate_succ]
  · intro now h
    refine ⟨isAllowed_reset cfg hen e now h, ?_⟩
    rw [allowBurst_eq_isAllowed]
    exact isAllowed_reset
      { cfg with requestsPerMinute := cfg.requestsPerMinute + cfg.burstSize }
      hen e now h

/-- C5 witness: a blocked record at `resetAt = 60`; an `IsAllowed` call at
t = 10 and an `AllowBurst` call at t = 20 are both denied unchanged, and the
first call at t = 61 resets it. -/
theorem rate_latch_C5_witness :
    runRate cfgR (some { requests := 6, resetAt := 60, blocked := true })
        [(false, 10), (true, 20)] =
      ([false, false], some { requests := 6, resetAt := 60, blocked := true })
    ∧ isAllowed cfgR (some { requests := 6, resetAt := 60, blocked := true }) 61 =
        (true, some { requests := 1, resetAt := 121, blocked := false }) := by
  have h := rate_latch_C5 cfgR rfl { requests := 6, resetAt := 60, blocked := true } rfl
  constructor
  · have h1 := h.1 [(false, 10), (true, 20)] (by decide)
    simpa using h1
  · have h2 := (h.2 61 (by norm_num)).1
    norm_num at h2
    exact h2

/-- C6: `AllowBurst` is the same state machine as `IsAllowed` with the trip
threshold raised to `RequestsPerMinute + BurstSize`; with
`RequestsPerMinute = 5`, `BurstSize = 2` and no prior record, 7 calls within
one window are all allowed and the 8th is denied. -/
theorem rate_burst_C6 (cfg : RateLimitConfig) (hen : cfg.enabled = true)
    (hlim : cfg.requestsPerMinute = 5) (hbs : cfg.burstSize = 2)
    (t1 t2 t3 t4 t5 t6 t7 t8 : Int)
    (h2 : t2 ≤ t1 + 60) (h3 : t3 ≤ t1 + 60) (h4 : t4 ≤ t1 + 60) (h5 : t5 ≤ t1 + 60)
    (h6 : t6 ≤ t1 + 60) (h7 : t7 ≤ t1 + 60) (h8 : t8 ≤ t1 + 60) :
    (∀ (st : Option RateLimitEntry) (now : Int),
        allowBurst cfg st now =
          isAllowed { cfg with requestsPerMinute := cfg.requestsPerMinute + cfg.burstSize }
            st now)
    ∧ runRate cfg none
        [(true, t1), (true, t2), (true, t3), (true, t4),
         (true, t5), (true, t6), (true, t7), (true, t8)] =
      ([true, true, true, true, true, true, true, false],
       some { requests := 8, resetAt := t1 + 60, blocked := true }) := by
  set cfg' : RateLimitConfig :=
    { cfg with requestsPerMinute := cfg.requestsPerMinute + cfg.burstSize } with hcfg
  have hen' : cfg'.enabled = true := hen
  have hlim' : cfg'.requestsPerMinute = 7 := by rw [hcfg]; simp [hlim, hbs]
  refine ⟨fun st now => allowBurst_eq_isAllowed cfg st now, ?_⟩
  have hstep : ∀ (st : Option RateLimitEntry) (now : Int),
      rateStep cfg st (true, now) = isAllowed cfg' st now := by
    intro st now
    simp [rateStep, allowBurst_eq_isAllowed]
  have e1 := isAllowed_fresh cfg' hen' t1
  have e2 : isAllowed cfg' (some { requests := 1, resetAt := t1 + 60, blocked := false }) t2
      = (true, some { requests := 2, resetAt := t1 + 60, blocked := false }) := by
    rw [isAllowed_count cfg' hen' _ t2 h2 rfl, hlim']; norm_num
  have e3 : isAllowed cfg' (some { requests := 2, resetAt := t1 + 60, blocked := false }) t3
      = (true, some { requests := 3, resetAt := t1 + 60, blocked := false }) := by
    rw [isAllowed_count cfg' hen' _ t3 h3 rfl, hlim']; norm_num
  have e4 : isAllowed cfg' (some { requests := 3, resetAt := t1 + 60, blocked := false }) t4
      = (true, some { requests := 4, resetAt := t1 + 60, blocked := false }) := by
    rw [isAllowed_count cfg' hen' _ t4 h4 rfl, hlim']; norm_num
  have e5 : isAllowed cfg' (some { requests := 4, resetAt := t1 + 60, blocked := false }) t5
      = (true, some { requests := 5, resetAt := t1 + 60, blocked := false }) := by
    rw [isAllowed_count cfg' hen' _ t5 h5 rfl, hlim']; norm_num
  have e6 : isAllowed cfg' (some { requests := 5, resetAt := t1 + 60, blocked := false }) t6
      = (true, some { requests := 6, resetAt := t1 + 60, blocked := false }) := by
    rw [isAllowed_count cfg' hen' _ t6 h6 rfl, hlim']; norm_num
  have e7 : isAllowed cfg' (some { requests := 6, resetAt := t1 + 60, blocked := false }) t7
      = (true, some { requests := 7, resetAt := t1 + 60, blocked := false }) := by
    rw [isAllowed_count cfg' hen' _ t7 h7 rfl, hlim']; norm_num
  have e8 : isAllowed cfg' (some { requests := 7, resetAt := t1 + 60, blocked := false }) t8
      = (false, some { requests := 8, resetAt := t1 + 60, blocked := true }) := by
    rw [isAllowed_count cfg' hen' _ t8 h8 rfl, hlim']; norm_num
  simp [runRate, hstep, e1, e2, e3, e4, e5, e6, e7, e8]

/-- C6 witness: eight `AllowBurst` calls at t = 0. -/
theorem rate_burst_C6_witness :
    allowBurst cfgR none 0 =
      isAllowed { cfgR with requestsPerMinute := cfgR.requestsPerMinute + cfgR.burstSize }
        none 0
    ∧ runRate cfgR none
        [(true, 0), (true, 0), (true, 0), (true, 0),
         (true, 0), (true, 0), (true, 0), (true, 0)] =
      ([true, true, true, true, true, true, true, false],
       some { requests := 8, resetAt := 60, blocked := true }) := by
  have h := rate_burst_C6 cfgR rfl rfl rfl 0 0 0 0 0 0 0 0
    (by norm_num) (by norm_num) (by norm_num) (by norm_num)
    (by norm_num) (by norm_num) (by norm_num)
  refine ⟨h.1 none 0, ?_⟩
  have h2 := h.2
  norm_num at h2
  exact h2

theorem removeIds_eq_filter (ids : List String) (files : List (String × DownloadedFile)) :
    removeIds files ids = files.filter (fun p => !(ids.contains p.1)) := by
  induction ids generalizing files with
  | nil => simp [removeIds]
  | cons i ids ih =>
    show removeIds (files.filter (fun p => !(p.1 == i))) ids = _
    rw [ih, List.filter_filter]
    apply List.filter_congr
    intro p _
    cases h1 : (p.1 == i) <;> cases h2 : ids.contains p.1 <;> simp_all

theorem sweepScan_ids (fs : String → DeleteResult) (now : Int)
    (files : List (String × DownloadedFile)) :
    (sweepScan fs now files).1 =
      (files.filter (fun p => timeAfter now p.2.expiresAt)).map Prod.fst := by
  induction files with
  | nil => rfl
  | cons p rest ih =>
    obtain ⟨id, f⟩ := p
    cases hexp : timeAfter now f.expiresAt with
    | false => simp [sweepScan, hexp, ih]
    | true => cases hfs : fs f.filePath <;> simp [sweepScan, hexp, hfs, ih]

theorem sweepScan_deleted (fs : String → DeleteResult) (now : Int)
    (files : List (String × DownloadedFile)) :
    (sweepScan fs now files).2.1 =
      (files.filter (fun p => timeAfter now p.2.expiresAt
          && decide (fs p.2.filePath = DeleteResult.ok))).length := by
  induction files with
  | nil => rfl
  | cons p rest ih =>
    obtain ⟨id, f⟩ := p
    cases hexp : timeAfter now f.expiresAt with
    | false => simp [sweepScan, hexp, ih]
    | true => cases hfs : fs f.filePath <;> simp [sweepScan, hexp, hfs, ih]

theorem sweepScan_errors (fs : String → DeleteResult) (now : Int)
    (files : List (String × DownloadedFile)) :
    (sweepScan fs now files).2.2 =
      (files.filter (fun p => timeAfter now p.2.expiresAt
          && decide (fs p.2.filePath = DeleteResult.otherErr))).length := by
  induction files with
  | nil => rfl
  | cons p rest ih =>
    obtain ⟨id, f⟩ := p
    cases hexp : timeAfter now f.expiresAt with
    | false => simp [sweepScan, hexp, ih]
    | true => cases hfs : fs f.filePath <;> simp [sweepScan, hexp, hfs, ih]

theorem contains_eq_decide_mem (l : List String) (a : String) :
    l.contains a = decide (a ∈ l) := by
  cases hc : l.contains a <;> cases hd : decide (a ∈ l) <;> simp_all

/-- C8: a sweep removes exactly the expired records from the tracking map,
independently of the filesystem deletion outcomes (the right-hand side of
the first equation does not mention `fs` at all): an already-absent backing
file (`IsNotExist`) is not counted as an error, any other deletion failure
is only counted in `errorCount` and still has its record removed, no record
blocks the processing of the others, and no non-expired record is removed. -/
theorem storage_sweep_C8 (fs : String → DeleteResult)
    (files : List (String × DownloadedFile)) (now : Int)
    (hkeys : (files.map Prod.fst).Nodup) :
    (cleanupExpiredFiles fs files now).files
        = files.filter (fun p => !(timeAfter now p.2.expiresAt))
    ∧ (cleanupExpiredFiles fs files now).deletedCount
        = (files.filter (fun p => timeAfter now p.2.expiresAt
            && decide (fs p.2.filePath = DeleteResult.ok))).length
    ∧ (cleanupExpiredFiles fs files now).errorCount
        = (files.filter (fun p => timeAfter now p.2.expiresAt
            && decide (fs p.2.filePath = DeleteResult.otherErr))).length := by
  refine ⟨?_, sweepScan_deleted fs now files, sweepScan_errors fs now files⟩
  show removeIds files (sweepScan fs now files).1 = _
  rw [removeIds_eq_filter, sweepScan_ids]
  apply List.filter_congr
  intro p hp
  show (!((files.filter (fun q => timeAfter now q.2.expiresAt)).map Prod.fst).contains p.1)
    = !(timeAfter now p.2.expiresAt)
  rw [contains_eq_decide_mem]
  cases hexp : timeAfter now p.2.expiresAt with
  | false =>
    have hnot : ¬ p.1 ∈ (files.filter (fun q => timeAfter now q.2.expiresAt)).map Prod.fst := by
      intro hin
      obtain ⟨q, hq, hfst⟩ := List.mem_map.mp hin
      obtain ⟨hqmem, hqexp⟩ := List.mem_filter.mp hq
      have hqp : q = p := List.inj_on_of_nodup_map hkeys hqmem hp hfst
      rw [hqp] at hqexp
      rw [hexp] at hqexp
      exact Bool.false_ne_true hqexp
    rw [decide_eq_false hnot]
  | true =>
    have hin : p.1 ∈ (files.filter (fun q => timeAfter now q.2.expiresAt)).map Prod.fst :=
      List.mem_map.mpr ⟨p, List.mem_filter.mpr ⟨hp, hexp⟩, rfl⟩
    rw [decide_eq_true hin]

/-- C8 witness: three tracked files at t = 100 — one expired whose backing
file deletes cleanly, one expired whose deletion fails with a non-IsNotExist
error, one not yet expired.  Both expired records are removed, the fresh one
stays, and only the hard failure is counted as an error. -/
theorem storage_sweep_C8_witness :
    (cleanupExpiredFiles fsW filesW 100).files = [("c", fileC)]
    ∧ (cleanupExpiredFiles fsW filesW 100).deletedCount = 1
    ∧ (cleanupExpiredFiles fsW filesW 100).errorCount = 1 := by
  obtain ⟨h1, h2, h3⟩ := storage_sweep_C8 fsW filesW 100 (by decide)
  refine ⟨?_, ?_, ?_⟩
  · rw [h1]; decide
  · rw [h2]; decide
  · rw [h3]; decide

/-- C3 counterexample: with TTL = 60, a file registered at t0 = 0 and a sweep
run at exactly t = t0 + TTL = 60 (`t ≥ t0 + T` per the claim) leaves the
record present — `GetFile` still returns it, not `NotFound` — because the
sweep removes a record only when `now` is strictly after `ExpiresAt`. -/
theorem storage_ttl_C3_counterexample :
    getFile (cleanupExpiredFiles (fun _ => DeleteResult.ok)
        (saveFile cfgS [] 0 "a" (rawFile "p")) 60).files "a"
      = some { rawFile "p" with id := "a", createdAt := 0, expiresAt := 60 }
    ∧ ¬ (getFile (cleanupExpiredFiles (fun _ => DeleteResult.ok)
        (saveFile cfgS [] 0 "a" (rawFile "p")) 60).files "a" = none) := by
  refine ⟨by decide, by decide⟩

theorem getFile_cleanup_head (fs : String → DeleteResult) (t : Int) (id : String)
    (rec : DownloadedFile) (tail : List (String × DownloadedFile))
    (htail : ∀ p ∈ tail, (p.1 == id) = false) :
    getFile (cleanupExpiredFiles fs ((id, rec) :: tail) t).files id
      = if timeAfter t rec.expiresAt then none else some rec := by
  show getFile (removeIds ((id, rec) :: tail) (sweepScan fs t ((id, rec) :: tail)).1) id = _
  rw [removeIds_eq_filter, sweepScan_ids]
  cases hexp : timeAfter t rec.expiresAt with
  | false =>
    have hL : ((id, rec) :: tail).filter (fun p => timeAfter t p.2.expiresAt)
        = tail.filter (fun p => timeAfter t p.2.expiresAt) := by
      rw [List.filter_cons]
      simp [hexp]
    rw [hL]
    have hnot : ¬ id ∈ (tail.filter (fun p => timeAfter t p.2.expiresAt)).map Prod.fst := by
      intro hin
      obtain ⟨q, hq, hfst⟩ := List.mem_map.mp hin
      have hqtail := (List.mem_filter.mp hq).1
      have h3 := htail q hqtail
      rw [hfst] at h3
      simp at h3
    simp [List.filter_cons, hnot, getFile, List.find?_cons]
  | true =>
    have hL : ((id, rec) :: tail).filter (fun p => timeAfter t p.2.expiresAt)
        = (id, rec) :: tail.filter (fun p => timeAfter t p.2.expiresAt) := by
      rw [List.filter_cons]
      simp [hexp]
    rw [hL]
    have hin : id ∈ ((id, rec) :: tail.filter
        (fun p => timeAfter t p.2.expiresAt)).map Prod.fst := by
      simp
    have hnone : ∀ pr : (String × DownloadedFile) → Bool,
        getFile (tail.filter pr) id = none := by
      intro pr
      have hfind : (tail.filter pr).find? (fun p => p.1 == id) = none :=
        List.find?_eq_none.mpr (fun p hp => by
          have hptail := (List.mem_filter.mp hp).1
          simp [htail p hptail])
      simp [getFile, hfind]
    simp [List.filter_cons, hin, hnone]

/-- C3 (amended): after `SaveFile(id, f)` at `t0` with TTL `T`, `GetFile(id)`
returns the stamped record; it still does after a sweep run at any
`t ≤ t0 + T` (in particular, lookups succeed throughout `[t0, t0 + T)`); and
after a sweep run at any `t > t0 + T` (strictly — not `t ≥ t0 + T` as
claimed) `GetFile(id)` returns `none`. -/
theorem storage_ttl_C3 (cfg : StorageConfig) (files0 : List (String × DownloadedFile))
    (fs : String → DeleteResult) (id : String) (f : DownloadedFile) (t0 : Int) :
    getFile (saveFile cfg files0 t0 id f) id
      = some { f with id := id, createdAt := t0, expiresAt := t0 + cfg.fileTTLSeconds }
    ∧ (∀ t : Int, t ≤ t0 + cfg.fileTTLSeconds →
        getFile (cleanupExpiredFiles fs (saveFile cfg files0 t0 id f) t).files id
          = some { f with id := id, createdAt := t0, expiresAt := t0 + cfg.fileTTLSeconds })
    ∧ (∀ t : Int, t0 + cfg.fileTTLSeconds < t →
        getFile (cleanupExpiredFiles fs (saveFile cfg files0 t0 id f) t).files id
          = none) := by
  have htail_ne : ∀ p ∈ files0.filter (fun p => !(p.1 == id)), (p.1 == id) = false := by
    intro p hp
    have h := (List.mem_filter.mp hp).2
    simpa using h
  have hsave : saveFile cfg files0 t0 id f
      = (id, { f with id := id, createdAt := t0, expiresAt := t0 + cfg.fileTTLSeconds })
        :: files0.filter (fun p => !(p.1 == id)) := rfl
  have hproj :
      ({ f with id := id, createdAt := t0, expiresAt := t0 + cfg.fileTTLSeconds }
          : DownloadedFile).expiresAt
        = t0 + cfg.fileTTLSeconds := rfl
  refine ⟨?_, ?_, ?_⟩
  · rw [hsave]
    simp [getFile]
  · intro t ht
    have hA : timeAfter t (t0 + cfg.fileTTLSeconds) = false := timeAfter_eq_false.mpr ht
    rw [hsave, getFile_cleanup_head fs t id _ _ htail_ne, hproj, hA]
    simp
  · intro t ht
    have hA : timeAfter t (t0 + cfg.fileTTLSeconds) = true := timeAfter_eq_true.mpr ht
    rw [hsave, getFile_cleanup_head fs t id _ _ htail_ne, hproj, hA]
    simp

/-- C3 amended-claim witness: TTL = 60, register at t0 = 0; lookup succeeds
immediately and after a sweep at t = 59; a sweep at t = 61 removes it. -/
theorem storage_ttl_C3_witness :
    getFile (saveFile cfgS [] 0 "a" (rawFile "p")) "a"
      = some { rawFile "p" with id := "a", createdAt := 0, expiresAt := 60 }
    ∧ getFile (cleanupExpiredFiles (fun _ => DeleteResult.ok)
        (saveFile cfgS [] 0 "a" (rawFile "p")) 59).files "a"
      = some { rawFile "p" with id := "a", createdAt := 0, expiresAt := 60 }
    ∧ getFile (cleanupExpiredFiles (fun _ => DeleteResult.ok)
        (saveFile cfgS [] 0 "a" (rawFile "p")) 61).files "a" = none := by
  obtain ⟨h1, h2, h3⟩ := storage_ttl_C3 cfgS [] (fun _ => DeleteResult.ok) "a" (rawFile "p") 0
  refine ⟨?_, ?_, h3 61 (by decide)⟩
  · rw [h1]
    decide
  · rw [h2 59 (by decide)]
    decide

/-- C9: `Stop` performs a non-blocking send with a `default` fallback on the
unbuffered `quitChan`: when the cleanup routine is not at that instant
waiting to receive, `Stop` returns with the signal dropped (first and second
conjuncts: delivery happens exactly when a receiver is waiting), and a
cleanup routine whose event trace never contains a received quit signal
keeps running forever — no trace prefix without a quit event reaches the
stopped state. -/
theorem manager_stop_C9 :
    managerStop false = StopOutcome.dropped
    ∧ (∀ w : Bool, managerStop w = StopOutcome.delivered ↔ w = true)
    ∧ (∀ evs : List RoutineEvent, (∀ e ∈ evs, e ≠ RoutineEvent.quit) →
        runRoutine evs = RoutineState.running) := by
  refine ⟨rfl, ?_, ?_⟩
  · intro w
    cases w <;> simp [managerStop]
  · intro evs hq
    induction evs with
    | nil => rfl
    | cons e es ih =>
      have he : e ≠ RoutineEvent.quit := hq e (List.mem_cons_self e es)
      have he' : e = RoutineEvent.tick := by
        cases e
        · exact absurd rfl he
        · rfl
      have ih' := ih (fun x hx => hq x (List.mem_cons_of_mem _ hx))
      rw [he']
      exact ih'

/-- C9 witness: two ticks without a quit event leave the routine running,
and a `Stop` against a non-waiting receiver is dropped. -/
theorem manager_stop_C9_witness :
    runRoutine [RoutineEvent.tick, RoutineEvent.tick] = RoutineState.running := by
  exact manager_stop_C9.2.2 [RoutineEvent.tick, RoutineEvent.tick] (by decide)

/-- C10 (implicit): the allow-list check accepts a URL as soon as any
non-empty trimmed-and-lowercased allowed domain occurs as an *arbitrary
substring* of the normalised host (leading `"www."` stripped, lowercased) —
no exact-equality or dot-separated-suffix match is required, so a host that
merely embeds an allowed domain inside a longer attacker-chosen name is
accepted. -/
theorem validateURL_substring_C10 (host : List Char) (doms : List (List Char))
    (d : List Char) (hmem : d ∈ doms)
    (hne : (goToLower (goTrimSpace d)).isEmpty = false)
    (hsub : goContains (normalizeHost host) (goToLower (goTrimSpace d)) = true) :
    validateURL (some host) doms = true := by
  show hostAllowed host doms = true
  rw [hostAllowed, List.any_eq_true]
  refine ⟨d, hmem, ?_⟩
  simp [hne, hsub]

/-- C10 witness: with allow-list `["youtube.com"]`, the host
`evil-youtube.com.attacker.net` — which is registered under `attacker.net`
and merely embeds the allowed domain in the middle — is accepted. -/
theorem validateURL_substring_C10_witness :
    validateURL (some ("evil-youtube.com.attacker.net".toList))
      ["youtube.com".toList] = true := by
  apply validateURL_substring_C10 ("evil-youtube.com.attacker.net".toList)
    ["youtube.com".toList] ("youtube.com".toList)
  · exact List.mem_singleton.mpr rfl
  · decide
  · decide

end Vidhub
